import Mathlib

/-!
A shallow embedding of the ATPG circuit core in `gate.py`: the 5-valued
logic algebra (0, 1, X, D, ~D), the per-gate propagation functions, the
Signal (`Node`) state/fault model, SCOAP-style controllability, the
X-path search, and the search-heuristic input-selection queries.
Python exceptions (ValueError / AssertionError / KeyError / IndexError)
are modelled with `Except String`; Python `None` with `Option`.
-/

namespace Atpg

/-- The five logic values handled by `Gate`: 0, 1, X (undetermined),
D (1 on good circuit, 0 on bad circuit) and ~D (written `Dbar`). -/
inductive V5 where
  | zero
  | one
  | X
  | D
  | Dbar
deriving DecidableEq, Repr, Fintype

open V5

/-- `Gate.invert`: the inversion dictionary 0↔1, D↔~D, X↔X. -/
def invert : V5 → V5
  | zero => one
  | one => zero
  | X => X
  | D => Dbar
  | Dbar => D

/-- The body of `Gate.and_propagate` after its arity assertion:
the if-chain over membership tests, ending in an (unreachable for
5-valued inputs) fallback `return 0`. -/
def andCore (l : List V5) : V5 :=
  if zero ∈ l then zero
  else if ∀ x ∈ l, x = one then one
  else if D ∈ l ∧ Dbar ∈ l then zero
  else if X ∈ l then X
  else if D ∈ l ∧ ¬Dbar ∈ l then D
  else if ¬D ∈ l ∧ Dbar ∈ l then Dbar
  else zero

/-- The body of `Gate.or_propagate` after its arity assertion.
In Python, `not any(inputs)` tests truthiness of the stored values:
it holds exactly when every input is the integer 0. -/
def orCore (l : List V5) : V5 :=
  if one ∈ l then one
  else if ∀ x ∈ l, x = zero then zero
  else if D ∈ l ∧ Dbar ∈ l then one
  else if X ∈ l then X
  else if D ∈ l then D
  else Dbar

/-- `Gate.not_propagate`: asserts exactly one input, then inverts it. -/
def notPropagate (l : List V5) : Except String V5 :=
  match l with
  | [a] => .ok (invert a)
  | _ => .error "AssertionError"

/-- `Gate.and_propagate`: asserts more than one input, then `andCore`. -/
def andPropagate (l : List V5) : Except String V5 :=
  if 1 < l.length then .ok (andCore l) else .error "AssertionError"

/-- `Gate.or_propagate`: asserts more than one input, then `orCore`. -/
def orPropagate (l : List V5) : Except String V5 :=
  if 1 < l.length then .ok (orCore l) else .error "AssertionError"

/-- `Gate.nand_propagate`: invert of `and_propagate`. -/
def nandPropagate (l : List V5) : Except String V5 :=
  (andPropagate l).map invert

/-- `Gate.nor_propagate`: invert of `or_propagate`. -/
def norPropagate (l : List V5) : Except String V5 :=
  (orPropagate l).map invert

/-- The inner helper `xor_2inp` of `Gate.xor_propagate`:
`or(and(a, invert b), and(b, invert a))`.  Both `and_propagate` /
`or_propagate` calls are on two-element lists, so their arity
assertions hold and only the core if-chains remain. -/
def xor2 (a b : V5) : V5 :=
  orCore [andCore [a, invert b], andCore [b, invert a]]

/-- `Gate.xor_propagate`: pops the last input as the seed, then reduces
right-to-left with `xor_2inp`.  Popping from an empty list raises
IndexError in Python. -/
def xorPropagate (l : List V5) : Except String V5 :=
  match l.reverse with
  | [] => .error "IndexError"
  | v :: rest => .ok (rest.foldl xor2 v)

/-- `Gate.xnor_propagate`: invert of `xor_propagate`. -/
def xnorPropagate (l : List V5) : Except String V5 :=
  (xorPropagate l).map invert

/-- `Gate._propagate`: dispatch on the type tag of the gate; an
unknown tag raises AttributeError from `getattr` in Python. -/
def propagateFn (t : String) (l : List V5) : Except String V5 :=
  match t with
  | "not" => notPropagate l
  | "and" => andPropagate l
  | "nand" => nandPropagate l
  | "or" => orPropagate l
  | "nor" => norPropagate l
  | "xor" => xorPropagate l
  | "xnor" => xnorPropagate l
  | _ => .error "AttributeError"

/-- True iff the `Except` models a raised Python exception. -/
def isErr {α : Type} : Except String α → Bool
  | .ok _ => false
  | .error _ => true

/-- The ValueError message raised by `Node.set_state`. -/
def assignErr : String := "ValueError: trying to assign D or ~D to a faulty gate"

/-- `Node.set_state`, as a function of the `stuck_at` field of the
node and the assigned value: raises if the node is faulty (`stuck_at != None`)
and the value is D or ~D; masks 1 to D under stuck-at-0 and 0 to ~D
under stuck-at-1; otherwise stores the raw value. -/
def setState (stuck : Option Nat) (v : V5) : Except String V5 :=
  if stuck ≠ none ∧ (v = D ∨ v = Dbar) then .error assignErr
  else if stuck = some 0 ∧ v = one then .ok D
  else if stuck = some 1 ∧ v = zero then .ok Dbar
  else .ok v

/-- The mutable fields of a `Node`: current value, optional stuck-at
fault, list of consuming gates (`self.gates`, one entry per occurrence
of the node among the inputs of a gate), the producing gate (`gate_output`,
`none` for a primary input) and the cached controllability scores
(`None` until computed). -/
structure NodeRec where
  state : V5
  stuck : Option Nat
  gates : List Nat
  gateOutput : Option Nat
  cc0 : Option Nat
  cc1 : Option Nat
deriving DecidableEq, Repr

/-- `Node.set_state` acting on a whole node record: only the `state`
field is written; a raised ValueError leaves the node untouched. -/
def setStateN (nd : NodeRec) (v : V5) : Except String NodeRec :=
  (setState nd.stuck v).map (fun s => { nd with state := s })

/-- `Node.is_fanout`: `len(self.gates) > 1`. -/
def isFanout (gates : List Nat) : Bool := gates.length > 1

/-- The consumer registration performed by `Gate.__init__`
(`for node in self.inputs: node.gates.append(self)`), accumulated over
a whole circuit build: gate `g` (indexed by construction order) with
input list `ins` appends itself to the `gates` list of node `nd` once
per occurrence of `nd` in `ins`. -/
def consumersOf (nd : Nat) (inss : List (List Nat)) : List Nat :=
  inss.enum.flatMap (fun p => (p.2.filter (fun x => x == nd)).map (fun _ => p.1))

/-- The structural fields of a `Gate` relevant to propagation: its type
tag, the ids of its input nodes and the id of its owned output node. -/
structure GateRec where
  type : String
  inputs : List Nat
  out : Nat
deriving DecidableEq, Repr

/-- The seven keys of `Gate.name_counts`. -/
def gateTypes : List String := ["not", "and", "nand", "or", "nor", "xor", "xnor"]

/-- `Gate.__init__`: incrementing `Gate.name_counts[type]` raises
KeyError for an unknown type tag; for the seven known tags the
constructor performs no arity check and always succeeds (naming, depth
computation and consumer registration are total). -/
def mkGate (t : String) (ins : List Nat) (out : Nat) : Except String GateRec :=
  if t ∈ gateTypes then .ok ⟨t, ins, out⟩ else .error "KeyError"

/-- `Gate.propagate` as a transformer of the circuit state (a map from
node id to node record): read the value of every input node, compute
the truth table of the type, and write the result to the owned output
node via `set_state`. -/
def propagate (s : Nat → NodeRec) (g : GateRec) : Except String (Nat → NodeRec) :=
  match propagateFn g.type (g.inputs.map (fun i => (s i).state)) with
  | .error e => .error e
  | .ok out =>
    match setStateN (s g.out) out with
    | .error e => .error e
    | .ok nd => .ok (fun i => if i = g.out then nd else s i)

/-! ### Controllability (`Node.set_controllability`) -/

/-- `sum([x.cc0 for x in gate_inputs])`; inputs are (cc0, cc1) pairs. -/
def sumCC0 (inputs : List (Nat × Nat)) : Nat := (inputs.map Prod.fst).sum

/-- `sum([x.cc1 for x in gate_inputs])`. -/
def sumCC1 (inputs : List (Nat × Nat)) : Nat := (inputs.map Prod.snd).sum

/-- `min([x.cc0 for x in gate_inputs])` over the nonempty list `i :: rest`. -/
def minCC0 (i : Nat × Nat) (rest : List (Nat × Nat)) : Nat :=
  (rest.map Prod.fst).foldl min i.1

/-- `min([x.cc1 for x in gate_inputs])` over the nonempty list `i :: rest`. -/
def minCC1 (i : Nat × Nat) (rest : List (Nat × Nat)) : Nat :=
  (rest.map Prod.snd).foldl min i.2

/-- `itertools.combinations(range(1, n + 1), k)`: all length-`k`
sorted tuples drawn from 1..n, i.e. the length-`k` sublists. -/
def combinations (k : Nat) (l : List Nat) : List (List Nat) :=
  List.sublistsLen k l

/-- `construct_odds(n)`: for every odd `k` in 1..n, all combinations of
1..n of size `k`. -/
def constructOdds (n : Nat) : List (List Nat) :=
  ((List.range' 1 n).filter (fun x => x % 2 == 1)).flatMap
    (fun k => combinations k (List.range' 1 n))

/-- One term of the `xor_cc1_xnor_cc0` minimization: for a combination
`c` (a set of 1-based input positions), sum `cc1` of the inputs whose
position is in `c` and `cc0` of the rest. -/
def gateTerm (inputs : List (Nat × Nat)) (c : List Nat) : Nat :=
  (inputs.enum.map (fun p => if p.1 + 1 ∈ c then p.2.2 else p.2.1)).sum

/-- `xor_cc1_xnor_cc0(inputs)`: running minimum starting from the
sentinel 1000000 over the terms of all odd combinations, plus 1. -/
def xorCC1XnorCC0 (inputs : List (Nat × Nat)) : Nat :=
  (((constructOdds inputs.length).map (gateTerm inputs)).foldl
    (fun m t => if t < m then t else m) 1000000) + 1

/-- The per-gate-type formulas of `Node.set_controllability`, as a
function of the type of the producing gate and the already-computed
(cc0, cc1) scores of its inputs.  In Python, `min` and attribute
access fail on an empty
input list, and an unknown type leaves `cc0`/`cc1` unbound
(NameError); both are modelled as `none`. -/
def setControllability (t : String) (inputs : List (Nat × Nat)) : Option (Nat × Nat) :=
  match inputs with
  | [] => none
  | i :: rest =>
    match t with
    | "not" => some (i.2 + 1, i.1 + 1)
    | "and" => some (minCC0 i rest + 1, sumCC1 (i :: rest) + 1)
    | "nand" => some (sumCC1 (i :: rest) + 1, minCC0 i rest + 1)
    | "or" => some (sumCC0 (i :: rest) + 1, minCC1 i rest + 1)
    | "nor" => some (minCC1 i rest + 1, sumCC0 (i :: rest) + 1)
    | "xor" =>
      some (min (sumCC0 (i :: rest)) (sumCC1 (i :: rest)) + 1,
        xorCC1XnorCC0 (i :: rest))
    | "xnor" =>
      some (xorCC1XnorCC0 (i :: rest),
        min (sumCC0 (i :: rest)) (sumCC1 (i :: rest)) + 1)
    | _ => none

/-- The (cc0, cc1) scores computed for a `k`-deep chain of 2-input AND
gates whose both inputs are the signal of the previous stage, starting from
a primary input with scores (1, 1): every value in its range is a pair
of scores `set_controllability` actually computes on a legal circuit. -/
def chainCC : Nat → Nat × Nat
  | 0 => (1, 1)
  | k + 1 => (setControllability "and" [chainCC k, chainCC k]).getD (0, 0)

/-! ### Heuristic input selection (`Gate.get_hardest/easiest_controllable_input`) -/

/-- The view of an input node used by the selection queries: its value
and its (computed) controllability scores. -/
structure CNode where
  state : V5
  cc0 : Nat
  cc1 : Nat
deriving DecidableEq, Repr

/-- `attribute = "cc0" if val == 0 else "cc1"`, then `getattr`. -/
def ccAttr (val : Nat) (nd : CNode) : Nat :=
  if val = 0 then nd.cc0 else nd.cc1

/-- The candidate list scanned by both queries: the unassigned
(X-valued) inputs if `unassigned` is set and any exist, otherwise all
inputs. -/
def cands (inputs : List CNode) (unassigned : Bool) : List CNode :=
  if (if unassigned then inputs.filter (fun nd => nd.state == X) else []).length = 0
      ∨ unassigned = false then inputs
  else inputs.filter (fun nd => nd.state == X)

/-- The scanning loop of `get_hardest_controllable_input`: running
maximum (strict improvement only) with its argument. -/
def hardLoop (f : CNode → Nat) : List CNode → Nat → Option CNode → Option CNode
  | [], _, acc => acc
  | x :: xs, m, acc =>
    if m < f x then hardLoop f xs (f x) (some x) else hardLoop f xs m acc

/-- `Gate.get_hardest_controllable_input`: scan the candidates with a
running maximum started at 0 and no node selected. -/
def getHardest (inputs : List CNode) (val : Nat) (unassigned : Bool) : Option CNode :=
  hardLoop (ccAttr val) (cands inputs unassigned) 0 none

/-- The scanning loop of `get_easiest_controllable_input`: running
minimum (strict improvement only) with its argument. -/
def easyLoop (f : CNode → Nat) : List CNode → Nat → Option CNode → Option CNode
  | [], _, acc => acc
  | x :: xs, m, acc =>
    if f x < m then easyLoop f xs (f x) (some x) else easyLoop f xs m acc

/-- `Gate.get_easiest_controllable_input`: scan the candidates with a
running minimum started at the sentinel 100000 and no node selected. -/
def getEasiest (inputs : List CNode) (val : Nat) (unassigned : Bool) : Option CNode :=
  easyLoop (ccAttr val) (cands inputs unassigned) 100000 none

/-! ### X-path search (`Node.has_x_path`) -/

/-- The fan-out graph walked by `has_x_path`: the consumer-gate
outputs of node `i` are `succs i`; a node is a primary output iff `succs` is empty
(`len(self.gates) == 0`).  Gates are built referencing already-created
signals and the output signal of each gate is created at its construction,
so consumer edges strictly increase the creation index: this field is
what makes the depth-first search terminate on a circuit. -/
structure Circuit where
  n : Nat
  state : Nat → V5
  succs : Nat → List Nat
  succs_lt : ∀ i j, j ∈ succs i → i < j ∧ j < n

/-- The depth-first search of `has_x_path`, one frame per visited node
(a node is pushed only if its value is X; on visiting, a primary
output means success, otherwise its X-valued consumer outputs are
explored).  The fuel argument bounds the recursion depth; since edges
strictly increase the node index, depth `c.n + 1` is never exhausted. -/
def visitX (c : Circuit) : Nat → Nat → Bool
  | 0, _ => false
  | fuel + 1, i =>
    if c.succs i = [] then true
    else (c.succs i).any (fun j => (c.state j == X) && visitX c fuel j)

/-- `Node.has_x_path`: a primary output answers whether its own value
is X; any other node searches from its X-valued consumer-gate
outputs. -/
def hasXPath (c : Circuit) (i : Nat) : Bool :=
  if c.succs i = [] then c.state i == X
  else (c.succs i).any (fun j => (c.state j == X) && visitX c (c.n + 1) j)

/-! ### Spec-side definitions (transcribed from the words of the
specification, to be compared with the source-derived definitions above) -/

/-- The AND truth table as the specification words it: "result 0 if any
input is 0; else 1 if all inputs are 1; else 0 if both D and ~D are
present among inputs; else X if any input is X; else D if only D
present (no ~D, no X, no 0); else ~D". -/
def specAnd (l : List V5) : V5 :=
  if zero ∈ l then zero
  else if ∀ x ∈ l, x = one then one
  else if D ∈ l ∧ Dbar ∈ l then zero
  else if X ∈ l then X
  else if D ∈ l then D
  else Dbar

/-- "every subset of inputs of odd size", a subset of the 1-based input
positions 1..n. -/
def oddSubsets (n : Nat) : List (List Nat) :=
  (List.range' 1 n).sublists.filter (fun s => s.length % 2 == 1)

/-- The cost the specification assigns to a subset: "sum of cc1 for
inputs in the subset + sum of cc0 for inputs not in the subset". -/
def specCost (inputs : List (Nat × Nat)) (s : List Nat) : Nat :=
  ((inputs.enum.filter (fun p => decide (p.1 + 1 ∈ s))).map (fun p => p.2.2)).sum +
    ((inputs.enum.filter (fun p => !decide (p.1 + 1 ∈ s))).map (fun p => p.2.1)).sum

/-- The costs of all odd-sized subsets; "parity-min(odd)" is the
minimum of this list. -/
def specCosts (inputs : List (Nat × Nat)) : List Nat :=
  (oddSubsets inputs.length).map (specCost inputs)

/-- The X-path predicate of the specification at a node `j` already known to
be a consumer-gate output: `j` has value X and is a primary output, or
`j` has value X and some consumer-gate output of `j` continues the
path.  "a path of Signals, each with value X, … to a primary output
(inclusive)". -/
inductive XPathTo (c : Circuit) : Nat → Prop where
  | po : ∀ j, c.state j = X → c.succs j = [] → XPathTo c j
  | step : ∀ j k, c.state j = X → k ∈ c.succs j → XPathTo c k → XPathTo c j

/-! ### Claim C3: the AND truth table -/

theorem andCore_eq_specAnd (l : List V5) : andCore l = specAnd l := by
  unfold andCore specAnd
  by_cases h0 : zero ∈ l
  · simp only [if_pos h0]
  · rw [if_neg h0, if_neg h0]
    by_cases h1 : ∀ x ∈ l, x = one
    · rw [if_pos h1, if_pos h1]
    · rw [if_neg h1, if_neg h1]
      by_cases hdd : D ∈ l ∧ Dbar ∈ l
      · rw [if_pos hdd, if_pos hdd]
      · rw [if_neg hdd, if_neg hdd]
        by_cases hx : X ∈ l
        · rw [if_pos hx, if_pos hx]
        · rw [if_neg hx, if_neg hx]
          by_cases hd : D ∈ l
          · have hb : ¬Dbar ∈ l := fun hb => hdd ⟨hd, hb⟩
            rw [if_pos ⟨hd, hb⟩, if_pos hd]
          · by_cases hb : Dbar ∈ l
            · rw [if_neg (fun h => hd h.1), if_pos ⟨hd, hb⟩, if_neg hd]
            · exfalso
              apply h1
              intro x hxl
              cases x
              · exact absurd hxl h0
              · rfl
              · exact absurd hxl hx
              · exact absurd hxl hd
              · exact absurd hxl hb

/-- Claim C3: for every list of two or more 5-valued inputs, AND
propagation returns 0 if any input is 0; else 1 if all inputs are 1;
else 0 if both D and ~D are present; else X if any input is X; else D
if only D is present; else ~D. -/
theorem claim3_and_truth_table (l : List V5) (h : 2 ≤ l.length) :
    andPropagate l = .ok (specAnd l) := by
  unfold andPropagate
  rw [if_pos (by omega), andCore_eq_specAnd]

theorem claim3_witness :
    andPropagate [D, one] = .ok (specAnd [D, one]) ∧ specAnd [D, one] = D :=
  ⟨claim3_and_truth_table [D, one] (by decide), by decide⟩

/-! ### Claim C6: fault masking in `set_state` -/

/-- Claim C6: under stuck-at-0, assigning 1 stores D and assigning 0
stores 0; under stuck-at-1, assigning 0 stores ~D and assigning 1
stores 1; in every other case with an assigned value in {0, 1, X}, the
raw value is stored unchanged. -/
theorem claim6_fault_masking (st : Option Nat) (v : V5) :
    (st = some 0 → setState st one = .ok D ∧ setState st zero = .ok zero) ∧
    (st = some 1 → setState st zero = .ok Dbar ∧ setState st one = .ok one) ∧
    ((v = zero ∨ v = one ∨ v = X) → ¬(st = some 0 ∧ v = one) →
      ¬(st = some 1 ∧ v = zero) → setState st v = .ok v) := by
  refine ⟨?_, ?_, ?_⟩
  · rintro rfl; exact ⟨rfl, rfl⟩
  · rintro rfl; exact ⟨rfl, rfl⟩
  · intro hv h2 h3
    unfold setState
    rw [if_neg, if_neg h2, if_neg h3]
    rintro ⟨-, hd⟩
    rcases hv with rfl | rfl | rfl <;> rcases hd with h | h <;> cases h

theorem claim6_witness :
    setState (some 0) one = .ok D ∧ setState (some 1) zero = .ok Dbar ∧
      setState (some 0) X = .ok X :=
  ⟨((claim6_fault_masking (some 0) one).1 rfl).1,
   ((claim6_fault_masking (some 1) zero).2.1 rfl).1,
   (claim6_fault_masking (some 0) X).2.2 (Or.inr (Or.inr rfl))
     (fun h => by cases h.2) (fun h => by cases h.1)⟩

/-! ### Claim C1: which assignments of D / ~D are rejected -/

theorem claim1_counterexample :
    setState none D = .ok D ∧ setState (some 0) D = .error assignErr := by
  constructor <;> rfl

/-- Claim C1 (amended): `set_state` rejects a direct assignment of D or
~D exactly on a Signal that does carry a fault (raising ValueError, so
the stored value is untouched); on a Signal with no fault the
assignment is accepted and stored as given. -/
theorem claim1_faulty_assignment_guard (st : Option Nat) (v : V5) :
    (st ≠ none → (v = D ∨ v = Dbar) → setState st v = .error assignErr) ∧
    (st = none → setState st v = .ok v) := by
  constructor
  · intro hst hv
    unfold setState
    rw [if_pos ⟨hst, hv⟩]
  · rintro rfl
    simp [setState]

theorem claim1_witness :
    setState (some 1) Dbar = .error assignErr ∧ setState none X = .ok X :=
  ⟨(claim1_faulty_assignment_guard (some 1) Dbar).1 (by decide) (Or.inr rfl),
   (claim1_faulty_assignment_guard none X).2 rfl⟩

/-! ### Claim C2: when the arity contract is enforced -/

theorem isErr_map {α β : Type} (f : α → β) (e : Except String α) :
    isErr (e.map f) = isErr e := by
  cases e <;> rfl

theorem claim2_counterexample :
    mkGate "not" [0, 1] 2 = .ok ⟨"not", [0, 1], 2⟩ ∧
      isErr (notPropagate [one, zero]) = true := by
  constructor <;> rfl

/-- Claim C2 (amended): constructing a Gate of any of the seven known
types never fails, whatever the arity; the arity contract is enforced
only at propagation time, by assertions in `not/and/or` propagation
(inherited by NAND/NOR), while XOR/XNOR propagation checks no arity at
all and fails only on an empty input list (popping from an empty
list). -/
theorem claim2_arity_check_timing :
    (∀ t ins out, t ∈ gateTypes → mkGate t ins out = .ok ⟨t, ins, out⟩) ∧
    (∀ l : List V5,
      (isErr (notPropagate l) = true ↔ l.length ≠ 1) ∧
      (isErr (andPropagate l) = true ↔ l.length < 2) ∧
      (isErr (orPropagate l) = true ↔ l.length < 2) ∧
      (isErr (nandPropagate l) = true ↔ l.length < 2) ∧
      (isErr (norPropagate l) = true ↔ l.length < 2) ∧
      (isErr (xorPropagate l) = true ↔ l = []) ∧
      (isErr (xnorPropagate l) = true ↔ l = [])) := by
  constructor
  · intro t ins out ht
    unfold mkGate
    rw [if_pos ht]
  · intro l
    have hand : isErr (andPropagate l) = true ↔ l.length < 2 := by
      unfold andPropagate
      by_cases h : 1 < l.length
      · rw [if_pos h]; simp [isErr]; omega
      · rw [if_neg h]; simp [isErr]; omega
    have hor : isErr (orPropagate l) = true ↔ l.length < 2 := by
      unfold orPropagate
      by_cases h : 1 < l.length
      · rw [if_pos h]; simp [isErr]; omega
      · rw [if_neg h]; simp [isErr]; omega
    have hxor : isErr (xorPropagate l) = true ↔ l = [] := by
      unfold xorPropagate
      cases hr : l.reverse with
      | nil => simp [isErr, List.reverse_eq_nil_iff.mp hr]
      | cons v rest =>
        have : l ≠ [] := by
          intro he
          rw [he] at hr
          cases hr
        simp [isErr, this]
    refine ⟨?_, hand, hor, ?_, ?_, hxor, ?_⟩
    · rcases l with - | ⟨a, - | ⟨b, t⟩⟩ <;> simp [notPropagate, isErr]
    · rw [nandPropagate, isErr_map]; exact hand
    · rw [norPropagate, isErr_map]; exact hor
    · rw [xnorPropagate, isErr_map]; exact hxor

theorem claim2_witness :
    mkGate "xor" [0] 1 = .ok ⟨"xor", [0], 1⟩ ∧ isErr (andPropagate [one]) = true :=
  ⟨claim2_arity_check_timing.1 "xor" [0] 1 (by decide),
   (claim2_arity_check_timing.2 [one]).2.1.mpr (by decide)⟩

/-! ### Claim C9: fan-out counts occurrences, not distinct consumers -/

theorem claim9_counterexample :
    isFanout (consumersOf 0 [[0, 0]]) = true ∧
      (consumersOf 0 [[0, 0]]).dedup.length = 1 := by
  constructor <;> rfl

/-- Claim C9 (amended): `is_fanout` compares the length of the raw
consumer list against 1, and that list carries one entry per occurrence
of the Signal among the inputs of each consuming gate; so a Signal is
reported as fan-out exactly when its total number of input occurrences
across all gates exceeds 1 — in particular, a Signal listed twice among
the inputs of a single Gate is reported as fan-out. -/
theorem claim9_fanout_occurrences (nd : Nat) (inss : List (List Nat)) :
    isFanout (consumersOf nd inss) =
      decide (1 < (inss.map (fun ins => ins.count nd)).sum) := by
  have hlen : (consumersOf nd inss).length =
      (inss.map (fun ins => ins.count nd)).sum := by
    unfold consumersOf
    rw [List.length_flatMap]
    have hmap : ∀ p : Nat × List Nat,
        ((List.length ∘ fun p : Nat × List Nat =>
          (p.2.filter (fun x => x == nd)).map (fun _ => p.1)) p) = p.2.count nd := by
      intro p
      simp [Function.comp, List.count, List.countP_eq_length_filter]
    calc (inss.enum.map (List.length ∘ fun p =>
            (p.2.filter (fun x => x == nd)).map (fun _ => p.1))).sum
        = (inss.enum.map (fun p => p.2.count nd)).sum := by
          rw [List.map_congr_left (fun p _ => hmap p)]
      _ = (inss.map (fun ins => ins.count nd)).sum := by
          rw [show (fun p : Nat × List Nat => p.2.count nd) =
                (fun ins : List Nat => ins.count nd) ∘ Prod.snd from rfl,
            ← List.map_map, List.enum_map_snd]
  unfold isFanout
  rw [hlen]

/-! ### Claim C10: the frame of `propagate` -/

theorem setStateN_frame (nd nd' : NodeRec) (v : V5)
    (h : setStateN nd v = .ok nd') :
    nd'.stuck = nd.stuck ∧ nd'.gates = nd.gates ∧
      nd'.gateOutput = nd.gateOutput ∧ nd'.cc0 = nd.cc0 ∧ nd'.cc1 = nd.cc1 := by
  unfold setStateN at h
  cases hs : setState nd.stuck v with
  | error e => rw [hs] at h; cases h
  | ok s =>
    rw [hs] at h
    injection h with h
    rw [← h]
    exact ⟨rfl, rfl, rfl, rfl, rfl⟩

/-- Claim C10: a `propagate()` call that returns normally writes only
the value of the output Signal owned by the gate; every other node
record is untouched, and the fault attachment, consumer list,
producer reference and cached cc0/cc1 are preserved. -/
theorem claim10_propagate_frame (s : Nat → NodeRec) (g : GateRec)
    (s' : Nat → NodeRec) (h : propagate s g = .ok s') :
    (∀ i, i ≠ g.out → s' i = s i) ∧
    (s' g.out).stuck = (s g.out).stuck ∧
    (s' g.out).gates = (s g.out).gates ∧
    (s' g.out).gateOutput = (s g.out).gateOutput ∧
    (s' g.out).cc0 = (s g.out).cc0 ∧
    (s' g.out).cc1 = (s g.out).cc1 := by
  unfold propagate at h
  split at h
  · exact Except.noConfusion h
  · split at h
    · exact Except.noConfusion h
    · rename_i nd hn
      injection h with h
      have hframe := setStateN_frame (s g.out) nd _ hn
      constructor
      · intro i hi
        rw [← h]
        simp only [if_neg hi]
      · rw [← h]
        simp only [if_pos rfl]
        exact hframe

/-- A two-input AND circuit state: primary inputs 0 and 1 valued 1,
output node 2 undetermined. -/
def nodeA : NodeRec := ⟨one, none, [0], none, none, none⟩

/-- Second primary input of the witness circuit. -/
def nodeB : NodeRec := ⟨one, none, [0], none, none, none⟩

/-- Output node of the only gate of the witness circuit. -/
def nodeO : NodeRec := ⟨X, none, [], some 0, none, none⟩

/-- The witness circuit state by node id. -/
def stateAB : Nat → NodeRec :=
  fun i => if i = 0 then nodeA else if i = 1 then nodeB else nodeO

/-- The AND gate of the witness circuit over nodes 0 and 1, owning node 2. -/
def gateAB : GateRec := ⟨"and", [0, 1], 2⟩

/-- The state after propagating `gateAB`: only the value of node 2 changed. -/
def stateAB' : Nat → NodeRec :=
  fun i => if i = gateAB.out then { nodeO with state := one } else stateAB i

theorem claim10_witness :
    (∀ i, i ≠ gateAB.out → stateAB' i = stateAB i) ∧
    (stateAB' gateAB.out).stuck = (stateAB gateAB.out).stuck ∧
    (stateAB' gateAB.out).gates = (stateAB gateAB.out).gates ∧
    (stateAB' gateAB.out).gateOutput = (stateAB gateAB.out).gateOutput ∧
    (stateAB' gateAB.out).cc0 = (stateAB gateAB.out).cc0 ∧
    (stateAB' gateAB.out).cc1 = (stateAB gateAB.out).cc1 :=
  claim10_propagate_frame stateAB gateAB stateAB' rfl

/-! ### Claim C8: the binary xor reduction is commutative and associative -/

theorem xor2_comm_all : ∀ a b, xor2 a b = xor2 b a := by decide

theorem xor2_assoc_all : ∀ a b c, xor2 (xor2 a b) c = xor2 a (xor2 b c) := by decide

theorem xor2_zero_left : ∀ v, xor2 zero v = v := by decide

theorem xor2_right_comm : ∀ a b c, xor2 (xor2 a b) c = xor2 (xor2 a c) b := by decide

theorem foldl_xor2_perm {l₁ l₂ : List V5} (h : l₁.Perm l₂) :
    ∀ b, l₁.foldl xor2 b = l₂.foldl xor2 b := by
  induction h with
  | nil => intro b; rfl
  | cons x h ih => intro b; rw [List.foldl_cons, List.foldl_cons, ih]
  | swap x y l =>
    intro b
    rw [List.foldl_cons, List.foldl_cons, List.foldl_cons, List.foldl_cons,
      xor2_right_comm]
  | trans h1 h2 ih1 ih2 => intro b; rw [ih1, ih2]

theorem xorPropagate_eq_foldl (l : List V5) (h : l ≠ []) :
    xorPropagate l = .ok (l.foldl xor2 zero) := by
  unfold xorPropagate
  cases hr : l.reverse with
  | nil => exact absurd (by rwa [List.reverse_eq_nil_iff] at hr) h
  | cons v rest =>
    have h1 : rest.foldl xor2 v = (v :: rest).foldl xor2 zero := by
      rw [List.foldl_cons, xor2_zero_left]
    change Except.ok (rest.foldl xor2 v) = _
    rw [h1, ← hr, foldl_xor2_perm (List.reverse_perm l)]

theorem foldl_xor2_hoist (a : V5) :
    ∀ (l : List V5) (b : V5), l.foldl xor2 (xor2 a b) = xor2 a (l.foldl xor2 b) := by
  intro l
  induction l with
  | nil => intro b; rfl
  | cons x t ih => intro b; rw [List.foldl_cons, List.foldl_cons, xor2_assoc_all, ih]

/-- Claim C8: the binary reduction `xor(a,b) = or(and(a, invert b),
and(b, invert a))` is commutative and associative over the five values,
and consequently the right-to-left pairwise reduction of
`xor_propagate` is invariant under any reordering of the inputs and
splits over any grouping of the input list. -/
theorem claim8_xor_reduction_invariance :
    (∀ a b, xor2 a b = xor2 b a) ∧
    (∀ a b c, xor2 (xor2 a b) c = xor2 a (xor2 b c)) ∧
    (∀ l₁ l₂ : List V5, l₁.Perm l₂ → xorPropagate l₁ = xorPropagate l₂) ∧
    (∀ (l₁ l₂ : List V5) (v₁ v₂ : V5), xorPropagate l₁ = .ok v₁ →
      xorPropagate l₂ = .ok v₂ → xorPropagate (l₁ ++ l₂) = .ok (xor2 v₁ v₂)) := by
  refine ⟨xor2_comm_all, xor2_assoc_all, ?_, ?_⟩
  · intro l₁ l₂ h
    rcases eq_or_ne l₁ [] with rfl | hne
    · rw [h.symm.eq_nil]
    · have hne2 : l₂ ≠ [] := fun he => hne ((he ▸ h).eq_nil)
      rw [xorPropagate_eq_foldl l₁ hne, xorPropagate_eq_foldl l₂ hne2,
        foldl_xor2_perm h]
  · intro l₁ l₂ v₁ v₂ h1 h2
    have hne1 : l₁ ≠ [] := by rintro rfl; exact Except.noConfusion h1
    have hne2 : l₂ ≠ [] := by rintro rfl; exact Except.noConfusion h2
    rw [xorPropagate_eq_foldl _ hne1] at h1
    rw [xorPropagate_eq_foldl _ hne2] at h2
    injection h1 with h1
    injection h2 with h2
    have hne12 : l₁ ++ l₂ ≠ [] := by
      intro he
      rcases List.append_eq_nil.mp he with ⟨he1, -⟩
      exact hne1 he1
    rw [xorPropagate_eq_foldl _ hne12, List.foldl_append, h1, ← h2]
    have : xor2 v₁ zero = v₁ := by rw [xor2_comm_all, xor2_zero_left]
    rw [← this, foldl_xor2_hoist, this]

theorem claim8_witness :
    xorPropagate [D, one, X] = xorPropagate [X, one, D] ∧
      xorPropagate ([D, one] ++ [X, Dbar]) = .ok (xor2 Dbar X) :=
  ⟨claim8_xor_reduction_invariance.2.2.1 [D, one, X] [X, one, D] (by decide),
   claim8_xor_reduction_invariance.2.2.2 [D, one] [X, Dbar] Dbar X rfl rfl⟩

/-! ### Claim C5: `has_x_path` decides X-path existence -/

theorem XPathTo.state_x {c : Circuit} {j : Nat} (h : XPathTo c j) : c.state j = X := by
  cases h <;> assumption

theorem visitX_correct (c : Circuit) :
    ∀ fuel j, c.n - j < fuel → c.state j = X →
      (visitX c fuel j = true ↔ XPathTo c j) := by
  intro fuel
  induction fuel with
  | zero => intro j h; exact absurd h (Nat.not_lt_zero _)
  | succ fu ih =>
    intro j hfu hx
    rw [visitX]
    by_cases hpo : c.succs j = []
    · rw [if_pos hpo]
      constructor
      · intro _; exact XPathTo.po j hx hpo
      · intro _; rfl
    · rw [if_neg hpo, List.any_eq_true]
      constructor
      · rintro ⟨k, hk, hkx⟩
        rw [Bool.and_eq_true, beq_iff_eq] at hkx
        have hlt := c.succs_lt j k hk
        have hfk : c.n - k < fu := by omega
        exact XPathTo.step j k hx hk ((ih k hfk hkx.1).mp hkx.2)
      · intro hp
        cases hp with
        | po _ _ hempty => exact absurd hempty hpo
        | step _ k hst hk hpk =>
          refine ⟨k, hk, ?_⟩
          rw [Bool.and_eq_true, beq_iff_eq]
          have hlt := c.succs_lt j k hk
          have hfk : c.n - k < fu := by omega
          exact ⟨hpk.state_x, (ih k hfk hpk.state_x).mpr hpk⟩

/-- Claim C5: for a primary output Signal (no consumers), `has_x_path`
answers whether its own value is X; for any other Signal it answers
whether some immediate consumer-gate output starts a path of X-valued
Signals ending at a primary output (inclusive). -/
theorem claim5_has_x_path (c : Circuit) (i : Nat) :
    (c.succs i = [] → (hasXPath c i = true ↔ c.state i = X)) ∧
    (c.succs i ≠ [] → (hasXPath c i = true ↔ ∃ j ∈ c.succs i, XPathTo c j)) := by
  constructor
  · intro hpo
    unfold hasXPath
    rw [if_pos hpo]
    exact beq_iff_eq
  · intro hpo
    unfold hasXPath
    rw [if_neg hpo, List.any_eq_true]
    constructor
    · rintro ⟨j, hj, hjx⟩
      rw [Bool.and_eq_true, beq_iff_eq] at hjx
      have h1 := c.succs_lt i j hj
      exact ⟨j, hj, (visitX_correct c (c.n + 1) j (by omega) hjx.1).mp hjx.2⟩
    · rintro ⟨j, hj, hp⟩
      have h1 := c.succs_lt i j hj
      refine ⟨j, hj, ?_⟩
      rw [Bool.and_eq_true, beq_iff_eq]
      exact ⟨hp.state_x, (visitX_correct c (c.n + 1) j (by omega) hp.state_x).mpr hp⟩

/-- A two-node circuit: node 0 feeds a gate whose output, node 1, is a
primary output; both nodes carry X. -/
def circXX : Circuit where
  n := 2
  state := fun _ => X
  succs := fun i => if i = 0 then [1] else []
  succs_lt := by
    intro i j hj
    by_cases hi : i = 0
    · subst hi
      simp at hj
      omega
    · simp [hi] at hj

theorem claim5_witness : hasXPath circXX 0 = true :=
  ((claim5_has_x_path circXX 0).2 (by decide)).mpr
    ⟨1, by decide, XPathTo.po 1 rfl rfl⟩

/-! ### Claim C7: hardest / easiest controllable input selection -/

theorem cands_subset (inputs : List CNode) (u : Bool) :
    ∀ y ∈ cands inputs u, y ∈ inputs := by
  intro y hy
  unfold cands at hy
  split_ifs at hy <;> first | exact hy | exact List.mem_of_mem_filter hy

theorem hardLoop_cases (f : CNode → Nat) :
    ∀ (xs : List CNode) (m : Nat) (acc : Option CNode),
      ((∀ y ∈ xs, f y ≤ m) ∧ hardLoop f xs m acc = acc) ∨
      (∃ l₁ x l₂, xs = l₁ ++ x :: l₂ ∧ hardLoop f xs m acc = some x ∧ m < f x ∧
        (∀ y ∈ l₁, f y < f x) ∧ (∀ y ∈ xs, f y ≤ f x)) := by
  intro xs
  induction xs with
  | nil => intro m acc; left; exact ⟨by simp, rfl⟩
  | cons a t ih =>
    intro m acc
    by_cases ha : m < f a
    · rw [hardLoop, if_pos ha]
      right
      rcases ih (f a) (some a) with ⟨hall, heq⟩ | ⟨l₁, x, l₂, hsplit, heq, hlt, hpre, hmax⟩
      · refine ⟨[], a, t, rfl, heq, ha, by simp, ?_⟩
        intro y hy
        rcases List.mem_cons.mp hy with rfl | hy
        · exact le_refl _
        · exact hall y hy
      · refine ⟨a :: l₁, x, l₂, by rw [hsplit]; rfl, heq, lt_trans ha hlt, ?_, ?_⟩
        · intro y hy
          rcases List.mem_cons.mp hy with rfl | hy
          · exact hlt
          · exact hpre y hy
        · intro y hy
          rcases List.mem_cons.mp hy with rfl | hy
          · exact le_of_lt hlt
          · exact hmax y hy
    · rw [hardLoop, if_neg ha]
      rcases ih m acc with ⟨hall, heq⟩ | ⟨l₁, x, l₂, hsplit, heq, hlt, hpre, hmax⟩
      · left
        refine ⟨?_, heq⟩
        intro y hy
        rcases List.mem_cons.mp hy with rfl | hy
        · exact Nat.le_of_not_lt ha
        · exact hall y hy
      · right
        refine ⟨a :: l₁, x, l₂, by rw [hsplit]; rfl, heq, hlt, ?_, ?_⟩
        · intro y hy
          rcases List.mem_cons.mp hy with rfl | hy
          · exact lt_of_le_of_lt (Nat.le_of_not_lt ha) hlt
          · exact hpre y hy
        · intro y hy
          rcases List.mem_cons.mp hy with rfl | hy
          · exact le_of_lt (lt_of_le_of_lt (Nat.le_of_not_lt ha) hlt)
          · exact hmax y hy

theorem easyLoop_cases (f : CNode → Nat) :
    ∀ (xs : List CNode) (m : Nat) (acc : Option CNode),
      ((∀ y ∈ xs, m ≤ f y) ∧ easyLoop f xs m acc = acc) ∨
      (∃ l₁ x l₂, xs = l₁ ++ x :: l₂ ∧ easyLoop f xs m acc = some x ∧ f x < m ∧
        (∀ y ∈ l₁, f x < f y) ∧ (∀ y ∈ xs, f x ≤ f y)) := by
  intro xs
  induction xs with
  | nil => intro m acc; left; exact ⟨by simp, rfl⟩
  | cons a t ih =>
    intro m acc
    by_cases ha : f a < m
    · rw [easyLoop, if_pos ha]
      right
      rcases ih (f a) (some a) with ⟨hall, heq⟩ | ⟨l₁, x, l₂, hsplit, heq, hlt, hpre, hmin⟩
      · refine ⟨[], a, t, rfl, heq, ha, by simp, ?_⟩
        intro y hy
        rcases List.mem_cons.mp hy with rfl | hy
        · exact le_refl _
        · exact hall y hy
      · refine ⟨a :: l₁, x, l₂, by rw [hsplit]; rfl, heq, lt_trans hlt ha, ?_, ?_⟩
        · intro y hy
          rcases List.mem_cons.mp hy with rfl | hy
          · exact hlt
          · exact hpre y hy
        · intro y hy
          rcases List.mem_cons.mp hy with rfl | hy
          · exact le_of_lt hlt
          · exact hmin y hy
    · rw [easyLoop, if_neg ha]
      rcases ih m acc with ⟨hall, heq⟩ | ⟨l₁, x, l₂, hsplit, heq, hlt, hpre, hmin⟩
      · left
        refine ⟨?_, heq⟩
        intro y hy
        rcases List.mem_cons.mp hy with rfl | hy
        · exact Nat.le_of_not_lt ha
        · exact hall y hy
      · right
        refine ⟨a :: l₁, x, l₂, by rw [hsplit]; rfl, heq, hlt, ?_, ?_⟩
        · intro y hy
          rcases List.mem_cons.mp hy with rfl | hy
          · exact lt_of_lt_of_le hlt (Nat.le_of_not_lt ha)
          · exact hpre y hy
        · intro y hy
          rcases List.mem_cons.mp hy with rfl | hy
          · exact le_of_lt (lt_of_lt_of_le hlt (Nat.le_of_not_lt ha))
          · exact hmin y hy

theorem claim7_counterexample :
    getEasiest [⟨X, (chainCC 16).1, (chainCC 16).2⟩] 1 true = none ∧
      cands [⟨X, (chainCC 16).1, (chainCC 16).2⟩] true ≠ [] := by
  constructor
  · rfl
  · decide

/-- Claim C7 (amended): both queries scan the X-valued inputs, or all
inputs when none are X-valued or the caller opts out.  With computed
(hence positive) scores, `get_hardest_controllable_input` returns the
first candidate of maximal cc0 (target 0) or cc1 (otherwise), and none
exactly when there is no candidate.  `get_easiest_controllable_input`
returns the first candidate of minimal score provided that minimum is
below the sentinel 100000; when there is no candidate, or every
score of every candidate is at least 100000, it returns none. -/
theorem claim7_input_selection (inputs : List CNode) (val : Nat) (u : Bool)
    (hpos : ∀ x ∈ inputs, 1 ≤ ccAttr val x) :
    (getHardest inputs val u = none ↔ cands inputs u = []) ∧
    (∀ x, getHardest inputs val u = some x →
      ∃ l₁ l₂, cands inputs u = l₁ ++ x :: l₂ ∧
        (∀ y ∈ l₁, ccAttr val y < ccAttr val x) ∧
        (∀ y ∈ cands inputs u, ccAttr val y ≤ ccAttr val x)) ∧
    (getEasiest inputs val u = none ↔
      (cands inputs u = [] ∨ ∀ x ∈ cands inputs u, 100000 ≤ ccAttr val x)) ∧
    (∀ x, getEasiest inputs val u = some x →
      ccAttr val x < 100000 ∧ ∃ l₁ l₂, cands inputs u = l₁ ++ x :: l₂ ∧
        (∀ y ∈ l₁, ccAttr val x < ccAttr val y) ∧
        (∀ y ∈ cands inputs u, ccAttr val x ≤ ccAttr val y)) := by
  have hposc : ∀ y ∈ cands inputs u, 1 ≤ ccAttr val y :=
    fun y hy => hpos y (cands_subset inputs u y hy)
  refine ⟨?_, ?_, ?_, ?_⟩
  · rcases hardLoop_cases (ccAttr val) (cands inputs u) 0 none with
      ⟨hall, heq⟩ | ⟨l₁, x, l₂, hsplit, heq, -, -, -⟩
    · rw [getHardest, heq]
      constructor
      · intro _
        rw [List.eq_nil_iff_forall_not_mem]
        intro y hy
        exact absurd (hall y hy) (by have := hposc y hy; omega)
      · intro _; rfl
    · rw [getHardest, heq]
      constructor
      · intro h; cases h
      · intro h
        rw [h] at hsplit
        exact absurd hsplit.symm (List.append_ne_nil_of_right_ne_nil l₁ (by simp))
  · intro x hx
    rcases hardLoop_cases (ccAttr val) (cands inputs u) 0 none with
      ⟨-, heq⟩ | ⟨l₁, x', l₂, hsplit, heq, -, hpre, hmax⟩
    · rw [getHardest, heq] at hx; cases hx
    · rw [getHardest, heq] at hx
      injection hx with hx
      subst hx
      exact ⟨l₁, l₂, hsplit, hpre, hmax⟩
  · rcases easyLoop_cases (ccAttr val) (cands inputs u) 100000 none with
      ⟨hall, heq⟩ | ⟨l₁, x, l₂, hsplit, heq, hlt, -, hmin⟩
    · rw [getEasiest, heq]
      constructor
      · intro _; exact Or.inr hall
      · intro _; rfl
    · rw [getEasiest, heq]
      constructor
      · intro h; cases h
      · rintro (h | h)
        · rw [h] at hsplit
          exact absurd hsplit.symm (List.append_ne_nil_of_right_ne_nil l₁ (by simp))
        · have hx : x ∈ cands inputs u := by
            rw [hsplit]
            exact List.mem_append_right l₁ (List.mem_cons_self x l₂)
          exact absurd (h x hx) (by omega)
  · intro x hx
    rcases easyLoop_cases (ccAttr val) (cands inputs u) 100000 none with
      ⟨-, heq⟩ | ⟨l₁, x', l₂, hsplit, heq, hlt, hpre, hmin⟩
    · rw [getEasiest, heq] at hx; cases hx
    · rw [getEasiest, heq] at hx
      injection hx with hx
      subst hx
      exact ⟨hlt, l₁, l₂, hsplit, hpre, hmin⟩

/-- An X-valued input node with computed scores (1, 2). -/
def cnX : CNode := ⟨X, 1, 2⟩

theorem claim7_witness :
    ∃ l₁ l₂, cands [cnX] true = l₁ ++ cnX :: l₂ ∧
      (∀ y ∈ l₁, ccAttr 1 y < ccAttr 1 cnX) ∧
      (∀ y ∈ cands [cnX] true, ccAttr 1 y ≤ ccAttr 1 cnX) :=
  (claim7_input_selection [cnX] 1 true (by decide)).2.1 cnX rfl

/-! ### Claim C4: XOR cc1 / XNOR cc0 -/

theorem le_foldl_min (x i : Nat) (l : List Nat) :
    x ≤ l.foldl min i ↔ x ≤ i ∧ ∀ a ∈ l, x ≤ a := by
  induction l generalizing i with
  | nil => simp
  | cons a t ih =>
    rw [List.foldl_cons, ih, Nat.le_min]
    constructor
    · rintro ⟨⟨hi, ha⟩, ht⟩
      refine ⟨hi, ?_⟩
      intro b hb
      rcases List.mem_cons.mp hb with rfl | hb
      · exact ha
      · exact ht b hb
    · rintro ⟨hi, hall⟩
      exact ⟨⟨hi, hall a (List.mem_cons_self a t)⟩,
        fun b hb => hall b (List.mem_cons_of_mem a hb)⟩

theorem foldl_min_choice (i : Nat) (l : List Nat) :
    l.foldl min i = i ∨ l.foldl min i ∈ l := by
  induction l generalizing i with
  | nil => left; rfl
  | cons a t ih =>
    rw [List.foldl_cons]
    rcases ih (min i a) with h | h
    · by_cases hia : i ≤ a
      · left; rw [h]; omega
      · right
        have ha : min i a = a := by omega
        rw [h, ha]
        exact List.mem_cons_self a t
    · right
      exact List.mem_cons_of_mem a h

theorem foldl_if_eq_min (l : List Nat) (i : Nat) :
    l.foldl (fun m t => if t < m then t else m) i = l.foldl min i := by
  have h : (fun (m t : Nat) => if t < m then t else m) = min := by
    funext m t
    split <;> omega
  rw [h]

theorem mem_constructOdds (n : Nat) (c : List Nat) :
    c ∈ constructOdds n ↔ c.Sublist (List.range' 1 n) ∧ c.length % 2 = 1 := by
  unfold constructOdds combinations
  rw [List.mem_flatMap]
  constructor
  · rintro ⟨k, hk, hc⟩
    rw [List.mem_filter] at hk
    rw [List.mem_sublistsLen] at hc
    refine ⟨hc.1, ?_⟩
    rw [hc.2]
    simpa using hk.2
  · rintro ⟨hsub, hodd⟩
    refine ⟨c.length, ?_, ?_⟩
    · rw [List.mem_filter]
      have hle : c.length ≤ n := by
        have := hsub.length_le
        rwa [List.length_range'] at this
      refine ⟨?_, by simp [hodd]⟩
      rw [List.mem_range'_1]
      omega
    · rw [List.mem_sublistsLen]
      exact ⟨hsub, rfl⟩

theorem mem_oddSubsets (n : Nat) (c : List Nat) :
    c ∈ oddSubsets n ↔ c.Sublist (List.range' 1 n) ∧ c.length % 2 = 1 := by
  unfold oddSubsets
  rw [List.mem_filter, List.mem_sublists]
  constructor
  · rintro ⟨hs, ho⟩
    exact ⟨hs, by simpa using ho⟩
  · rintro ⟨hs, ho⟩
    exact ⟨hs, by simp [ho]⟩

theorem sum_if_split {α : Type} (l : List α) (p : α → Prop) [DecidablePred p]
    (f g : α → Nat) :
    (l.map (fun x => if p x then f x else g x)).sum =
      ((l.filter (fun x => decide (p x))).map f).sum +
        ((l.filter (fun x => !decide (p x))).map g).sum := by
  induction l with
  | nil => rfl
  | cons a t ih =>
    by_cases ha : p a <;> simp [List.filter_cons, ha, ih] <;> omega

theorem gateTerm_eq_specCost (inputs : List (Nat × Nat)) (c : List Nat) :
    gateTerm inputs c = specCost inputs c := by
  unfold gateTerm specCost
  exact sum_if_split inputs.enum (fun p => p.1 + 1 ∈ c) (fun p => p.2.2) (fun p => p.2.1)

theorem mem_codeCosts_iff (inputs : List (Nat × Nat)) (x : Nat) :
    x ∈ (constructOdds inputs.length).map (gateTerm inputs) ↔
      x ∈ specCosts inputs := by
  unfold specCosts
  rw [List.mem_map, List.mem_map]
  constructor
  · rintro ⟨c, hc, rfl⟩
    exact ⟨c, (mem_oddSubsets _ c).mpr ((mem_constructOdds _ c).mp hc),
      (gateTerm_eq_specCost inputs c).symm⟩
  · rintro ⟨c, hc, rfl⟩
    exact ⟨c, (mem_constructOdds _ c).mpr ((mem_oddSubsets _ c).mp hc),
      gateTerm_eq_specCost inputs c⟩

theorem xorCC1XnorCC0_eq (inputs : List (Nat × Nat)) (m : Nat)
    (hm : m ∈ specCosts inputs) (hmin : ∀ c ∈ specCosts inputs, m ≤ c) :
    xorCC1XnorCC0 inputs = min 1000000 m + 1 := by
  unfold xorCC1XnorCC0
  rw [foldl_if_eq_min]
  congr 1
  have hL := mem_codeCosts_iff inputs
  have hself := (le_foldl_min _ 1000000
    ((constructOdds inputs.length).map (gateTerm inputs))).mp (le_refl _)
  apply le_antisymm
  · rw [Nat.le_min]
    exact ⟨hself.1, hself.2 m ((hL m).mpr hm)⟩
  · rw [le_foldl_min]
    exact ⟨min_le_left _ _,
      fun a ha => le_trans (min_le_right 1000000 m) (hmin a ((hL a).mp ha))⟩

theorem claim4_counterexample :
    setControllability "xor" [chainCC 20, chainCC 20] = some (43, 1000001) ∧
      2097172 ∈ specCosts [chainCC 20, chainCC 20] ∧
      (∀ c ∈ specCosts [chainCC 20, chainCC 20], 2097172 ≤ c) ∧
      (1000001 : Nat) ≠ 2097172 + 1 := by
  refine ⟨by decide, by decide, by decide, by decide⟩

/-- Claim C4 (amended): for an XOR gate over two or more inputs with
computed scores, cc1 is 1 plus the minimum of the sentinel 1000000 and
the parity minimum (the least, over every odd-sized subset of inputs,
of the sum of cc1 inside the subset plus cc0 outside it); the same
quantity is the cc0 of an XNOR gate over the same inputs.  (The
version of the claim without the sentinel cap holds whenever the
parity minimum is below 1000000.) -/
theorem claim4_xor_parity_min (inputs : List (Nat × Nat)) (m : Nat)
    (h2 : 2 ≤ inputs.length) (hm : m ∈ specCosts inputs)
    (hmin : ∀ c ∈ specCosts inputs, m ≤ c) :
    ∃ a, setControllability "xor" inputs = some (a, min 1000000 m + 1) ∧
      setControllability "xnor" inputs = some (min 1000000 m + 1, a) := by
  obtain ⟨i, rest, rfl⟩ : ∃ i rest, inputs = i :: rest := by
    cases inputs with
    | nil => simp at h2
    | cons i rest => exact ⟨i, rest, rfl⟩
  refine ⟨min (sumCC0 (i :: rest)) (sumCC1 (i :: rest)) + 1, ?_, ?_⟩ <;>
    simp only [setControllability, xorCC1XnorCC0_eq (i :: rest) m hm hmin]

theorem claim4_witness :
    ∃ a, setControllability "xor" [(1, 1), (1, 1)] = some (a, min 1000000 2 + 1) ∧
      setControllability "xnor" [(1, 1), (1, 1)] = some (min 1000000 2 + 1, a) :=
  claim4_xor_parity_min [(1, 1), (1, 1)] 2 (by decide) (by decide) (by decide)

end Atpg
